import Mathlib

/-!
Shallow embedding of the growable byte-buffer family ("FakeIo") of the
pashifika/util repository (packages `mem` and the single-owner variant),
together with proofs checking the natural-language specification against it.

A Go slice is modelled as a backing array (`data`, whose length is the
slice capacity) plus a logical length (`len`); reslicing within capacity
exposes the stale backing bytes exactly as in Go.  Panics are modelled by
an explicit `GoResult` outcome; Go `error` values are `Option GoErr`.
Cursors that Go stores in `int64` but provably never drives negative are
`Nat`, with the `int64` arithmetic kept where signs matter (Seek, grow).
-/

/-- Outcome of a Go computation: a normal value or a runtime panic. -/
inductive GoResult (α : Type) where
  | ok : α → GoResult α
  | panicked : String → GoResult α
deriving DecidableEq

/-- A Go `error` value as returned by the buffer methods. -/
inductive GoErr where
  | eof : GoErr
  | msg : String → GoErr
deriving DecidableEq

/-- Number of bytes the Go builtin `copy(dst, src)` transfers. -/
def goCopyCount (dstLen srcLen : Nat) : Nat := min srcLen dstLen

/-- Overwrite `k` bytes of `arr` starting at `start` with the first `k`
bytes of `src`, leaving everything else (including bytes past the logical
length, up to capacity) untouched. -/
def writeBytesAt (arr : List UInt8) (start k : Nat) (src : List UInt8) : List UInt8 :=
  arr.take start ++ src.take k ++ arr.drop (start + k)

/-- Semantics of the Go builtin `copy(buf[start:bound], src)` on backing array `arr`:
returns the copied count and the new backing array. -/
def goCopy (arr : List UInt8) (bound start : Nat) (src : List UInt8) : Nat × List UInt8 :=
  let k := goCopyCount (bound - start) src.length
  (k, writeBytesAt arr start k src)

/-- Initial allocation minimal capacity (`smallBufferSize` in the source). -/
def smallBufferSize : Nat := 64

/-- Largest Go `int` on a 64-bit platform (`maxInt` in the source). -/
def maxInt : Int := 2 ^ 63 - 1

/-- Model of `mem.FakeIo`: a variable-sized byte buffer.
`data` is the backing array (its length is `cap(buf)`), `len` is
`len(buf)`, `isNil` tracks whether `buf` is the nil slice, `off` is the
read offset and `lastRead` the `readOp` marker (`-1` read, `0` invalid,
`1..4` rune sizes). -/
structure FakeIo where
  data : List UInt8
  len : Nat
  isNil : Bool
  off : Nat
  lastRead : Int
deriving DecidableEq

namespace FakeIo

/-- The zero value of `mem.FakeIo`: an empty buffer ready to use. -/
def zeroValue : FakeIo := ⟨[], 0, true, 0, 0⟩

/-- `NewFakeIo(buf)`: a buffer taking ownership of existing content. -/
def NewFakeIo (b : List UInt8) : FakeIo := ⟨b, b.length, false, 0, 0⟩

/-- `cap(fio.buf)`. -/
def cap (s : FakeIo) : Nat := s.data.length

/-- `fio.empty()`: `len(fio.buf) <= int(fio.off)`. -/
def isEmpty (s : FakeIo) : Bool := s.len ≤ s.off

/-- `fio.Len()` as the Go `int` expression `len(fio.buf) - int(fio.off)`
(negative when the cursor was seeked past the end). -/
def lenUnread (s : FakeIo) : Int := (s.len : Int) - (s.off : Int)

/-- The bytes `fio.buf[fio.off:]` of the unread portion (as a list; the
well-definedness condition `off ≤ len` is where Go would panic). -/
def contents (s : FakeIo) : List UInt8 := (s.data.take s.len).drop s.off

/-- The full logical buffer `fio.buf` (the written bytes `buf[0:len]`). -/
def full (s : FakeIo) : List UInt8 := s.data.take s.len

/-- `fio.Bytes()`: `fio.buf[fio.off:]`, which panics when `off > len(buf)`. -/
def Bytes (s : FakeIo) : GoResult (List UInt8) :=
  if s.off ≤ s.len then .ok s.contents
  else .panicked "runtime error: slice bounds out of range"

/-- `fio.Reset()`: reslice to length 0, keep the backing storage. -/
def Reset (s : FakeIo) : FakeIo := { s with len := 0, off := 0, lastRead := 0 }

/-- `fio.tryGrowByReslice(n)`: reslice within capacity when possible,
returning the write index. -/
def tryGrowByReslice (s : FakeIo) (n : Nat) : Option (Nat × FakeIo) :=
  if n ≤ s.cap - s.len then some (s.len, { s with len := s.len + n }) else none

/-- Body of `fio.grow(n)` after the leading empty-buffer reset check.
The Go code captures `m := fio.Len()` before that reset; since the reset
fires only when `m` is zero and itself zeroes the unread length, `m`
always equals the unread length of the state entering this body, which is
what the slide condition, the returned index and the final reslice use
here. -/
def growAfterReset (s1 : FakeIo) (n : Nat) : GoResult (Nat × FakeIo) :=
  match s1.tryGrowByReslice n with
  | some r => .ok r
  | none =>
    if s1.isNil ∧ n ≤ smallBufferSize then
      .ok (0, { s1 with data := List.replicate smallBufferSize 0, len := n, isNil := false })
    else
      let c := s1.cap
      if (n : Int) ≤ (c : Int) / 2 - s1.lenUnread then
        -- slide the unread region to the front instead of allocating
        if s1.off ≤ s1.len then
          let mN := s1.len - s1.off
          let data1 := (goCopy s1.data s1.len 0 s1.contents).2
          .ok (mN, { s1 with data := data1, off := 0, len := mN + n })
        else .panicked "runtime error: slice bounds out of range"
      else if (c : Int) > maxInt - (c : Int) - (n : Int) then
        .panicked "bytes.FakeIo: too large"
      else
        if s1.off ≤ s1.len then
          let mN := s1.len - s1.off
          let fresh := List.replicate (2 * c + n) (0 : UInt8)
          let data1 := (goCopy fresh (2 * c + n) 0 s1.contents).2
          .ok (mN, { s1 with data := data1, isNil := false, off := 0, len := mN + n })
        else .panicked "runtime error: slice bounds out of range"

/-- `fio.grow(n)`: guarantee space for `n` more bytes, returning the write
index; panics with `ErrTooLarge` when the buffer cannot grow, and mirrors
the Go slicing panic if `off` exceeds `len`. -/
def grow (s : FakeIo) (n : Nat) : GoResult (Nat × FakeIo) :=
  growAfterReset (if s.lenUnread = 0 ∧ s.off ≠ 0 then s.Reset else s) n

/-- `fio.Grow(n)`: public capacity reservation; panics on negative `n`. -/
def Grow (s : FakeIo) (n : Int) : GoResult FakeIo :=
  if n < 0 then .panicked "bytes.FakeIo.Grow: negative count"
  else
    match s.grow n.toNat with
    | .panicked e => .panicked e
    | .ok (m, s') => .ok { s' with len := m }

/-- `fio.Write(p)`: append `p`, growing as needed. -/
def Write (s : FakeIo) (p : List UInt8) : GoResult (Nat × FakeIo) :=
  let s0 : FakeIo := { s with lastRead := 0 }
  let r : GoResult (Nat × FakeIo) :=
    match s0.tryGrowByReslice p.length with
    | some r => .ok r
    | none => s0.grow p.length
  match r with
  | .panicked e => .panicked e
  | .ok (m, s1) =>
    let c := goCopy s1.data s1.len m p
    .ok (c.1, { s1 with data := c.2 })

/-- `fio.Read(p)` with `len(p) = n`: returns the bytes copied into `p`,
the error, and the new state.  The compaction branch of the source is
kept verbatim even though its guard repeats the first check. -/
def Read (s : FakeIo) (n : Nat) : List UInt8 × Option GoErr × FakeIo :=
  if s.len ≤ s.off then ([], some .eof, s)
  else
    let s0 : FakeIo := { s with lastRead := 0 }
    if s0.isEmpty then
      let s1 := s0.Reset
      if n = 0 then ([], none, s1) else ([], some .eof, s1)
    else
      let k := min n (s0.len - s0.off)
      let out := s0.contents.take k
      (out, none, { s0 with off := s0.off + k, lastRead := if 0 < k then -1 else 0 })

/-- `fio.ReadByte()`. -/
def ReadByte (s : FakeIo) : UInt8 × Option GoErr × FakeIo :=
  if s.isEmpty then (0, some .eof, s.Reset)
  else (s.data.getD s.off 0, none, { s with off := s.off + 1, lastRead := -1 })

/-- `fio.UnreadByte()`. -/
def UnreadByte (s : FakeIo) : Option GoErr × FakeIo :=
  if s.lastRead = 0 then
    (some (.msg "bytes.FakeIo: UnreadByte: previous operation was not a successful read"), s)
  else
    let s1 : FakeIo := { s with lastRead := 0 }
    if 0 < s1.off then (none, { s1 with off := s1.off - 1 }) else (none, s1)

/-- `fio.UnreadRune()`. -/
def UnreadRune (s : FakeIo) : Option GoErr × FakeIo :=
  if s.lastRead ≤ 0 then
    (some (.msg "bytes.FakeIo: UnreadRune: previous operation was not a successful ReadRune"), s)
  else
    let s1 := if s.lastRead ≤ (s.off : Int) then { s with off := s.off - s.lastRead.toNat } else s
    (none, { s1 with lastRead := 0 })

/-- `fio.readSlice(delim)`: scan for the delimiter from the read cursor. -/
def readSlice (s : FakeIo) (delim : UInt8) : GoResult (List UInt8 × Option GoErr × FakeIo) :=
  if s.off ≤ s.len then
    let rest := s.contents
    match rest.findIdx? (· == delim) with
    | some i =>
      .ok (rest.take (i + 1), none, { s with off := s.off + i + 1, lastRead := -1 })
    | none =>
      .ok (rest, some .eof, { s with off := s.len, lastRead := -1 })
  else .panicked "runtime error: slice bounds out of range"

/-- `fio.ReadBytes(delim)` (returns a copy of the same bytes). -/
def ReadBytes (s : FakeIo) (delim : UInt8) : GoResult (List UInt8 × Option GoErr × FakeIo) :=
  s.readSlice delim

/-- `fio.ReadAt(b, off)` with `len(b) = n`: state-independent random read. -/
def ReadAt (s : FakeIo) (n : Nat) (off : Int) : List UInt8 × Option GoErr :=
  if off < 0 then ([], some (.msg "FakeIo.Multi.ReadAt: negative offset"))
  else if (s.len : Int) ≤ off then ([], some .eof)
  else
    let out := (s.full.drop off.toNat).take n
    (out, if out.length < n then some .eof else none)

/-- `fio.Seek(offset, whence)`. -/
def Seek (s : FakeIo) (offset : Int) (whence : Int) : Int × Option GoErr × FakeIo :=
  let s0 : FakeIo := { s with lastRead := -1 }
  let absPos : Option Int :=
    if whence = 0 then some offset
    else if whence = 1 then some ((s0.off : Int) + offset)
    else if whence = 2 then some ((s0.len : Int) + offset)
    else none
  match absPos with
  | none => (0, some (.msg "bytes.Reader.Seek: invalid whence"), s0)
  | some a =>
    if a < 0 then (0, some (.msg "bytes.Reader.Seek: negative position"), s0)
    else (a, none, { s0 with off := a.toNat })

/-- `fio.Truncate(n)`: keep the first `n` unread bytes; panics when `n` is
negative or exceeds the unread length. -/
def Truncate (s : FakeIo) (n : Int) : GoResult FakeIo :=
  if n = 0 then .ok s.Reset
  else
    let s0 : FakeIo := { s with lastRead := 0 }
    if n < 0 ∨ s0.lenUnread < n then .panicked "bytes.FakeIo: truncation out of range"
    else .ok { s0 with len := ((s0.off : Int) + n).toNat }

/-- `fio.WriteAt(p, pos)`: random-access write, growing when needed. -/
def WriteAt (s : FakeIo) (p : List UInt8) (pos : Int) : GoResult (Nat × FakeIo) :=
  let pLen := p.length
  let expLen : Int := pos + (pLen : Int)
  let s1 : FakeIo :=
    if (s.len : Int) < expLen then
      if (s.cap : Int) < expLen then
        let fresh := List.replicate expLen.toNat (0 : UInt8)
        { s with data := (goCopy fresh expLen.toNat 0 s.full).2,
                 len := expLen.toNat, isNil := false }
      else { s with len := expLen.toNat }
    else s
  if 0 ≤ pos ∧ pos ≤ (s1.len : Int) then
    .ok (pLen, { s1 with data := (goCopy s1.data s1.len pos.toNat p).2 })
  else .panicked "runtime error: slice bounds out of range"

end FakeIo

/-- Model of `mem.SyncFakeIo`: the mutex-guarded variant.  The lock is
irrelevant to the sequential semantics; the behavioural difference is the
`ManualReset` flag guarding the compaction resets. -/
structure SyncFakeIo where
  data : List UInt8
  len : Nat
  isNil : Bool
  off : Nat
  lastRead : Int
  manualReset : Bool
deriving DecidableEq

namespace SyncFakeIo

/-- `fio.empty()` of the sync variant. -/
def isEmpty (s : SyncFakeIo) : Bool := s.len ≤ s.off

/-- The unread portion `fio.buf[fio.off:]`. -/
def contents (s : SyncFakeIo) : List UInt8 := (s.data.take s.len).drop s.off

/-- `fio.reset()` of the sync variant. -/
def reset (s : SyncFakeIo) : SyncFakeIo := { s with len := 0, off := 0, lastRead := 0 }

/-- `SyncFakeIo.Read`: same shape as `FakeIo.Read`, with the compaction
reset additionally guarded by `!fio.ManualReset`. -/
def Read (s : SyncFakeIo) (n : Nat) : List UInt8 × Option GoErr × SyncFakeIo :=
  if s.len ≤ s.off then ([], some .eof, s)
  else
    let s0 : SyncFakeIo := { s with lastRead := 0 }
    if s0.isEmpty then
      let s1 := if ¬s0.manualReset then s0.reset else s0
      if n = 0 then ([], none, s1) else ([], some .eof, s1)
    else
      let k := min n (s0.len - s0.off)
      let out := s0.contents.take k
      (out, none, { s0 with off := s0.off + k, lastRead := if 0 < k then -1 else 0 })

/-- `SyncFakeIo.Seek`: identical to `FakeIo.Seek` under the lock. -/
def Seek (s : SyncFakeIo) (offset : Int) (whence : Int) : Int × Option GoErr × SyncFakeIo :=
  let s0 : SyncFakeIo := { s with lastRead := -1 }
  let absPos : Option Int :=
    if whence = 0 then some offset
    else if whence = 1 then some ((s0.off : Int) + offset)
    else if whence = 2 then some ((s0.len : Int) + offset)
    else none
  match absPos with
  | none => (0, some (.msg "bytes.Reader.Seek: invalid whence"), s0)
  | some a =>
    if a < 0 then (0, some (.msg "bytes.Reader.Seek: negative position"), s0)
    else (a, none, { s0 with off := a.toNat })

end SyncFakeIo

/-- Model of `mem.SingleFakeIo` (the single-owner variant, whose algorithms
are shared verbatim with `men_buffer.FakeIo` minus the mutex of that variant):
`off` is the write index, `i` the read index, `prevRune` the index of the
previous rune or `-1`. -/
structure SingleFakeIo where
  data : List UInt8
  len : Nat
  off : Nat
  i : Nat
  prevRune : Int
deriving DecidableEq

namespace SingleFakeIo

/-- `NewSingleFakeIo(size)`: capacity `size`, or 64 when `size <= 0`. -/
def NewSingleFakeIo (size : Int) : SingleFakeIo :=
  let bufSize := if size ≤ 0 then smallBufferSize else size.toNat
  ⟨List.replicate bufSize 0, 0, 0, 0, 0⟩

/-- `cap(fio.buf)`. -/
def cap (s : SingleFakeIo) : Nat := s.data.length

/-- The written bytes `fio.buf`. -/
def full (s : SingleFakeIo) : List UInt8 := s.data.take s.len

/-- `fio.resetAll()`. -/
def resetAll (s : SingleFakeIo) : SingleFakeIo :=
  { s with len := 0, off := 0, i := 0, prevRune := -1 }

/-- `fio.Reset(b)`: `resetAll` followed by `copy(fio.buf, b)` — the
destination slice has length zero, so the copy transfers nothing. -/
def Reset (s : SingleFakeIo) (b : List UInt8) : SingleFakeIo :=
  let s1 := s.resetAll
  { s1 with data := (goCopy s1.data s1.len 0 b).2 }

/-- `fio.Read(p)` with `len(p) = n`. -/
def Read (s : SingleFakeIo) (n : Nat) : List UInt8 × Option GoErr × SingleFakeIo :=
  if s.len ≤ s.i then ([], some .eof, s)
  else
    let s0 : SingleFakeIo := { s with prevRune := -1 }
    let k := min n (s0.len - s0.i)
    let out := ((s0.data.take s0.len).drop s0.i).take k
    (out, none, { s0 with i := s0.i + k })

/-- `fio.ReadByte()`. -/
def ReadByte (s : SingleFakeIo) : UInt8 × Option GoErr × SingleFakeIo :=
  let s0 : SingleFakeIo := { s with prevRune := -1 }
  if s0.len ≤ s0.i then (0, some .eof, s0)
  else (s0.data.getD s0.i 0, none, { s0 with i := s0.i + 1 })

/-- `fio.UnreadByte()`: fails only at the beginning of the slice. -/
def UnreadByte (s : SingleFakeIo) : Option GoErr × SingleFakeIo :=
  if s.i = 0 then (some (.msg "BufferIO.Reader.UnreadByte: at beginning of slice"), s)
  else (none, { s with prevRune := -1, i := s.i - 1 })

/-- `fio.Write(p)`: append at the write index, growing to
`len + max(smallBufferSize, len(p))` when capacity is insufficient. -/
def Write (s : SingleFakeIo) (p : List UInt8) : GoResult (Nat × SingleFakeIo) :=
  let pLen := p.length
  let bufLen := s.len
  let expLen := bufLen + pLen
  let growStep : GoResult SingleFakeIo :=
    if bufLen < expLen then
      let s1 :=
        if s.cap < expLen then
          let nextCap := max smallBufferSize pLen
          let fresh := List.replicate (bufLen + nextCap) (0 : UInt8)
          { s with data := (goCopy fresh bufLen 0 s.full).2 }
        else s
      if s.off + pLen ≤ s1.cap then .ok { s1 with len := s.off + pLen }
      else .panicked "runtime error: slice bounds out of range"
    else .ok s
  match growStep with
  | .panicked e => .panicked e
  | .ok s2 =>
    if s.off ≤ s2.len then
      .ok (pLen, { s2 with data := (goCopy s2.data s2.len s.off p).2, off := s.off + pLen })
    else .panicked "runtime error: slice bounds out of range"

/-- `fio.readSlice(delim)` of the single-owner variant: end-of-data is
signalled only when the unread region is empty (or starts with the
delimiter, which cannot happen when the search failed). -/
def readSlice (s : SingleFakeIo) (delim : UInt8) :
    GoResult (List UInt8 × Option GoErr × SingleFakeIo) :=
  if s.i ≤ s.len then
    let rest := (s.data.take s.len).drop s.i
    match rest.findIdx? (· == delim) with
    | some idx => .ok (rest.take (idx + 1), none, { s with i := s.i + idx + 1 })
    | none =>
      let err := if rest.length = 0 ∨ rest.headD 0 == delim then some GoErr.eof else none
      .ok (rest, err, { s with i := s.len })
  else .panicked "runtime error: slice bounds out of range"

/-- `fio.ReadBytes(delim)` (returns the internal slice directly). -/
def ReadBytes (s : SingleFakeIo) (delim : UInt8) :
    GoResult (List UInt8 × Option GoErr × SingleFakeIo) :=
  s.readSlice delim

/-- `fio.Seek(offset, whence)` of the single-owner variant. -/
def Seek (s : SingleFakeIo) (offset : Int) (whence : Int) :
    Int × Option GoErr × SingleFakeIo :=
  let s0 : SingleFakeIo := { s with prevRune := -1 }
  let absPos : Option Int :=
    if whence = 0 then some offset
    else if whence = 1 then some ((s0.i : Int) + offset)
    else if whence = 2 then some ((s0.len : Int) + offset)
    else none
  match absPos with
  | none => (0, some (.msg "BufferIO.Reader.Seek: invalid whence"), s0)
  | some a =>
    if a < 0 then (0, some (.msg "BufferIO.Reader.Seek: negative position"), s0)
    else (a, none, { s0 with i := a.toNat })

end SingleFakeIo

/-- Well-formedness of a `mem.FakeIo` state: read offset within logical
length, logical length within capacity, and a nil slice has an empty
backing array.  Every state reached by writes and in-range reads from a
fresh buffer satisfies it. -/
def Good (s : FakeIo) : Prop :=
  s.off ≤ s.len ∧ s.len ≤ s.data.length ∧ (s.isNil = true → s.data = [])

instance (s : FakeIo) : Decidable (Good s) := by
  unfold Good; infer_instance

/-- Sequence of `Write` calls feeding each result state to the next,
propagating a panic. -/
def writeAll (chunks : List (List UInt8)) (s : FakeIo) : GoResult FakeIo :=
  match chunks with
  | [] => .ok s
  | c :: rest =>
    match s.Write c with
    | .panicked e => .panicked e
    | .ok (_, s1) => writeAll rest s1

/-- Loop of `Read` calls with the given slice sizes, concatenating the
bytes each call copied out. -/
def readLoop (sizes : List Nat) (s : FakeIo) : List UInt8 × FakeIo :=
  match sizes with
  | [] => ([], s)
  | n :: rest =>
    let r1 := s.Read n
    let r2 := readLoop rest r1.2.2
    (r1.1 ++ r2.1, r2.2)

/-- Postcondition of a successful grow step of `mem.FakeIo` relative to
the state `sOld` it started from: the returned write index `m` carries
the old unread contents below it, the new logical length is `m + n`, the
result is well formed, and the capacity either is unchanged (reslice or
slide) or reached at least twice the old capacity plus `n` (fresh
allocation). -/
def GrewTo (sOld : FakeIo) (n m : Nat) (s1 : FakeIo) : Prop :=
  s1.len = m + n ∧ s1.len ≤ s1.data.length ∧ s1.off ≤ m ∧
  (s1.data.take m).drop s1.off = sOld.contents ∧
  (s1.isNil = true → s1.data = []) ∧
  (s1.data.length = sOld.data.length ∨ 2 * sOld.data.length + n ≤ s1.data.length)

/-- Claim C3 (code bug): the spec says a `Read` on a fully drained buffer
auto-compacts (resets length and cursor to zero) before reporting
end-of-data, and the source even carries a reset branch with that intent,
but its guard `fio.empty()` repeats the `off >= len(buf)` check that has
already returned, so the branch is dead: on the drained state reached by
writing one byte and reading it back, `Read` returns end-of-data with the
state (length 1, cursor 1) completely unchanged, in both the auto-reset
`FakeIO` and the `SyncFakeIO` variant with `ManualReset` off. -/
theorem c3_read_no_compaction_bug :
    FakeIo.zeroValue.Write [97] =
      .ok (1, ⟨97 :: List.replicate 63 0, 1, false, 0, 0⟩) ∧
    FakeIo.Read ⟨97 :: List.replicate 63 0, 1, false, 0, 0⟩ 1 =
      ([97], none, ⟨97 :: List.replicate 63 0, 1, false, 1, -1⟩) ∧
    FakeIo.Read ⟨97 :: List.replicate 63 0, 1, false, 1, -1⟩ 1 =
      ([], some .eof, ⟨97 :: List.replicate 63 0, 1, false, 1, -1⟩) ∧
    SyncFakeIo.Read ⟨[97], 1, false, 1, -1, false⟩ 1 =
      ([], some .eof, ⟨[97], 1, false, 1, -1, false⟩) := by
  refine ⟨by decide, by decide, by decide, by decide⟩

/-- Claim C2 is refuted at a concrete input: `Seek(5, SeekStart)` on the
empty buffer succeeds and leaves the read cursor at 5, strictly greater
than the stored length 0, and `Bytes` from that state is an out-of-range
slice panic — so the invariant `readCursor <= len(storage)` does not hold
at all times. -/
theorem c2_seek_past_end_counterexample :
    FakeIo.zeroValue.Seek 5 0 = (5, none, ⟨[], 0, true, 5, -1⟩) ∧
    FakeIo.len ⟨[], 0, true, 5, -1⟩ < FakeIo.off ⟨[], 0, true, 5, -1⟩ ∧
    FakeIo.Bytes ⟨[], 0, true, 5, -1⟩ =
      .panicked "runtime error: slice bounds out of range" := by
  refine ⟨by decide, by decide, by decide⟩

/-- Claim C6 is refuted at a concrete input: after `Seek(2, SeekStart)` on
a buffer holding two bytes, `UnreadByte` succeeds (error `none`) and moves
the cursor back to 1, because `Seek` sets the last-read marker to the
generic read value instead of clearing it to the invalid value. -/
theorem c6_unreadbyte_after_seek_counterexample :
    (FakeIo.NewFakeIo [97, 98]).Seek 2 0 = (2, none, ⟨[97, 98], 2, false, 2, -1⟩) ∧
    FakeIo.UnreadByte ⟨[97, 98], 2, false, 2, -1⟩ =
      (none, ⟨[97, 98], 2, false, 1, 0⟩) := by
  refine ⟨by decide, by decide⟩

/-- Claim C7 is refuted at a concrete input: a negative length to
`Truncate` and a negative count to `Grow` are not reported back to the
caller as failure values — both are panics (fatal faults), exactly as the
source doc comments state. -/
theorem c7_truncate_panics_counterexample :
    FakeIo.zeroValue.Truncate (-1) = .panicked "bytes.FakeIo: truncation out of range" ∧
    FakeIo.zeroValue.Grow (-1) = .panicked "bytes.FakeIo.Grow: negative count" := by
  refine ⟨by decide, by decide⟩

/-- Claim C8 is refuted on the `SingleFakeIO` / `men_buffer.FakeIO`
variant (their `UnreadByte` has no last-read marker and fails only at
cursor position 0): after writing and reading two bytes, two consecutive
`UnreadByte` calls both succeed, the second moving the cursor from 1 to 0
instead of failing. -/
theorem c8_single_double_unread_counterexample :
    (SingleFakeIo.NewSingleFakeIo 2).Write [97, 98] = .ok (2, ⟨[97, 98], 2, 2, 0, 0⟩) ∧
    SingleFakeIo.ReadByte ⟨[97, 98], 2, 2, 0, 0⟩ = (97, none, ⟨[97, 98], 2, 2, 1, -1⟩) ∧
    SingleFakeIo.ReadByte ⟨[97, 98], 2, 2, 1, -1⟩ = (98, none, ⟨[97, 98], 2, 2, 2, -1⟩) ∧
    SingleFakeIo.UnreadByte ⟨[97, 98], 2, 2, 2, -1⟩ = (none, ⟨[97, 98], 2, 2, 1, -1⟩) ∧
    SingleFakeIo.UnreadByte ⟨[97, 98], 2, 2, 1, -1⟩ = (none, ⟨[97, 98], 2, 2, 0, -1⟩) := by
  refine ⟨by decide, by decide, by decide, by decide, by decide⟩

/-- Claim C4 is refuted on the `SingleFakeIO` / `men_buffer.FakeIO`
variant: reading up to delimiter 10 from a buffer holding `[97, 98]`
(which contains no delimiter) returns the span `[97, 98]`, which does not
end with the delimiter, together with a `nil` error — end-of-data is
signalled there only when the unread region is empty. -/
theorem c4_single_readslice_counterexample :
    (SingleFakeIo.NewSingleFakeIo 2).Write [97, 98] = .ok (2, ⟨[97, 98], 2, 2, 0, 0⟩) ∧
    SingleFakeIo.ReadBytes ⟨[97, 98], 2, 2, 0, 0⟩ 10 =
      .ok ([97, 98], none, ⟨[97, 98], 2, 2, 2, 0⟩) ∧
    ([97, 98] : List UInt8).getLast? ≠ some 10 := by
  refine ⟨by decide, by decide, by decide⟩

/-- Claim C5 is refuted at a concrete input: when the extension fits the
existing capacity, the gap between the old length and the write position
is NOT zero-filled but re-exposes stale backing bytes.  Truncating a
buffer created over `"abcdef"` to one byte and then writing `"X"` at
offset 4 yields `"abcdX"`, not `"a\0\0\0X"`. -/
theorem c5_writeat_stale_gap_counterexample :
    (FakeIo.NewFakeIo [97, 98, 99, 100, 101, 102]).Truncate 1 =
      .ok ⟨[97, 98, 99, 100, 101, 102], 1, false, 0, 0⟩ ∧
    FakeIo.WriteAt ⟨[97, 98, 99, 100, 101, 102], 1, false, 0, 0⟩ [88] 4 =
      .ok (1, ⟨[97, 98, 99, 100, 88, 102], 5, false, 0, 0⟩) ∧
    FakeIo.full ⟨[97, 98, 99, 100, 88, 102], 5, false, 0, 0⟩ = [97, 98, 99, 100, 88] ∧
    ([97, 98, 99, 100, 88] : List UInt8) ≠ [97] ++ List.replicate 3 0 ++ [88] := by
  refine ⟨by decide, by decide, by decide, by decide⟩

/-- Claim C9 is refuted on the `SingleFakeIO` / `men_buffer.FakeIO`
variant: its `Write` allocates `len + max(64, len(p))`, not at least twice
the prior capacity plus the increment.  A fresh buffer of capacity 64
receiving a 100-byte write reallocates to capacity 100, but twice the
prior capacity plus the increment is 228. -/
theorem c9_single_growth_counterexample :
    (SingleFakeIo.NewSingleFakeIo 0).cap = 64 ∧
    (SingleFakeIo.NewSingleFakeIo 0).Write (List.replicate 100 37) =
      .ok (100, ⟨List.replicate 100 37, 100, 100, 0, 0⟩) ∧
    SingleFakeIo.cap ⟨List.replicate 100 37, 100, 100, 0, 0⟩ = 100 ∧
    ¬ (2 * 64 + 100 ≤ 100) := by
  refine ⟨by decide, by decide, by decide, by decide⟩

/-- Claim C10: `SingleFakeIO.Reset(b)` leaves the buffer empty — length,
write cursor and read cursor all zero — and copies none of the bytes of
`b` (the copy destination has length zero, so the backing array is
untouched), hence an immediately following `Read` or `ReadByte` reports
end-of-data regardless of `b`. -/
theorem c10_single_reset_empty (s : SingleFakeIo) (b : List UInt8) :
    (s.Reset b).len = 0 ∧ (s.Reset b).off = 0 ∧ (s.Reset b).i = 0 ∧
    (s.Reset b).data = s.data ∧
    (∀ n, (s.Reset b).Read n = ([], some .eof, s.Reset b)) ∧
    (s.Reset b).ReadByte = (0, some .eof, s.Reset b) := by
  refine ⟨rfl, rfl, rfl, ?_, fun n => rfl, rfl⟩
  simp [SingleFakeIo.Reset, SingleFakeIo.resetAll, goCopy, goCopyCount, writeBytesAt]

/-- Claim C2 (amended): the read cursor is never negative — a `Seek`
whose computed position is negative (or whose whence is unrecognized)
returns an error and leaves the cursor unchanged, a successful `Seek`
returns the nonnegative position it stored — and a cursor at or past the
end makes `Read` report end-of-data with no state change, while `Bytes`
is safe whenever the cursor is within the stored length.  (The original
stronger claim that `Seek` never leaves the cursor strictly greater than
the stored length is refuted separately.) -/
theorem c2_cursor_bounds_amended (s : FakeIo) (offset whence : Int) (n : Nat) :
    ((s.Seek offset whence).2.1 = none →
      (s.Seek offset whence).1 = ((s.Seek offset whence).2.2.off : Int) ∧
      0 ≤ (s.Seek offset whence).1) ∧
    ((s.Seek offset whence).2.1 ≠ none → (s.Seek offset whence).2.2.off = s.off) ∧
    (s.len ≤ s.off → s.Read n = ([], some .eof, s)) ∧
    (s.off ≤ s.len → s.Bytes = .ok s.contents) := by
  refine ⟨?_, ?_, fun h => by simp [FakeIo.Read, h], fun h => by simp [FakeIo.Bytes, h]⟩ <;>
  · simp only [FakeIo.Seek]
    by_cases h0 : whence = 0 <;> by_cases h1 : whence = 1 <;> by_cases h2 : whence = 2 <;>
      simp [h0, h1, h2] <;> split_ifs <;> simp_all

/-- Concrete instance of the amended C2 theorem: on the drained state of
a one-byte buffer, `Read` reports end-of-data and changes nothing. -/
theorem c2_cursor_bounds_amended_witness :
    FakeIo.Read ⟨[97], 1, false, 1, 0⟩ 3 = ([], some .eof, ⟨[97], 1, false, 1, 0⟩) :=
  (c2_cursor_bounds_amended ⟨[97], 1, false, 1, 0⟩ 0 0 3).2.2.1 (by decide)

/-- Claim C6 (amended): `Seek` repositions the read cursor relative to
start, current position or end, fails on a negative resulting position or
an unrecognized whence, and sets the last-read marker to the generic
read value — so an immediately following `UnreadRune` is rejected, but an
immediately following `UnreadByte` is accepted (the marker is not cleared
to the invalid value the spec describes). -/
theorem c6_seek_amended (s : FakeIo) (offset whence : Int) :
    (0 ≤ offset →
      s.Seek offset 0 = (offset, none, { s with lastRead := -1, off := offset.toNat })) ∧
    (0 ≤ (s.off : Int) + offset →
      s.Seek offset 1 = ((s.off : Int) + offset, none,
        { s with lastRead := -1, off := ((s.off : Int) + offset).toNat })) ∧
    (0 ≤ (s.len : Int) + offset →
      s.Seek offset 2 = ((s.len : Int) + offset, none,
        { s with lastRead := -1, off := ((s.len : Int) + offset).toNat })) ∧
    (offset < 0 → (s.Seek offset 0).2.1 ≠ none) ∧
    (¬(whence = 0 ∨ whence = 1 ∨ whence = 2) →
      (s.Seek offset whence).2.1 = some (.msg "bytes.Reader.Seek: invalid whence")) ∧
    (s.Seek offset whence).2.2.lastRead = -1 ∧
    ((s.Seek offset whence).2.2.UnreadRune).1 ≠ none ∧
    ((s.Seek offset whence).2.2.UnreadByte).1 = none := by
  have hmain : (s.Seek offset whence).2.2.lastRead = -1 := by
    simp only [FakeIo.Seek]
    by_cases h0 : whence = 0 <;> by_cases h1 : whence = 1 <;> by_cases h2 : whence = 2 <;>
      simp [h0, h1, h2] <;> split_ifs <;> simp
  refine ⟨?_, ?_, ?_, ?_, ?_, hmain, ?_, ?_⟩
  · intro h; simp [FakeIo.Seek, Int.not_lt.mpr h]
  · intro h; simp [FakeIo.Seek, Int.not_lt.mpr h]
  · intro h; simp [FakeIo.Seek, Int.not_lt.mpr h]
  · intro h; simp [FakeIo.Seek, h]
  · intro h
    push_neg at h
    obtain ⟨h0, h1, h2⟩ := h
    simp [FakeIo.Seek, h0, h1, h2]
  · simp [FakeIo.UnreadRune, hmain]
  · simp only [FakeIo.UnreadByte, hmain]
    norm_num
    split_ifs <;> rfl

/-- Concrete instance of the amended C6 theorem: seeking to position 1
from the start of a two-byte buffer. -/
theorem c6_seek_amended_witness :
    (FakeIo.NewFakeIo [97, 98]).Seek 1 0 = (1, none, ⟨[97, 98], 2, false, 1, -1⟩) :=
  (c6_seek_amended (FakeIo.NewFakeIo [97, 98]) 1 0).1 (by decide)

/-- Claim C7 (amended): a negative offset to `ReadAt` and an unrecognized
whence to `Seek` are reported back to the caller as explicit failure
values, but a negative length to `Truncate` and a negative count to
`Grow` are panics (fatal faults), alongside the resource-exhaustion
panic. -/
theorem c7_errors_amended (s : FakeIo) (n : Nat) (off m whence : Int) :
    (off < 0 → s.ReadAt n off = ([], some (.msg "FakeIo.Multi.ReadAt: negative offset"))) ∧
    (¬(whence = 0 ∨ whence = 1 ∨ whence = 2) →
      (s.Seek off whence).2.1 = some (.msg "bytes.Reader.Seek: invalid whence")) ∧
    (m < 0 → s.Truncate m = .panicked "bytes.FakeIo: truncation out of range") ∧
    (m < 0 → s.Grow m = .panicked "bytes.FakeIo.Grow: negative count") := by
  refine ⟨?_, ?_, ?_, ?_⟩
  · intro h; simp [FakeIo.ReadAt, h]
  · intro h
    push_neg at h
    obtain ⟨h0, h1, h2⟩ := h
    simp [FakeIo.Seek, h0, h1, h2]
  · intro h
    have h0 : m ≠ 0 := by omega
    simp [FakeIo.Truncate, h0, h]
  · intro h; simp [FakeIo.Grow, h]

/-- Concrete instance of the amended C7 theorem: `Truncate(-2)` panics. -/
theorem c7_errors_amended_witness :
    FakeIo.zeroValue.Truncate (-2) = .panicked "bytes.FakeIo: truncation out of range" :=
  (c7_errors_amended FakeIo.zeroValue 0 0 (-2) 0).2.2.1 (by decide)

/-- Claim C8 (amended, holds on the `mem.FakeIO` variant): from any state
with at least one unread byte, `ReadByte` succeeds and advances the
cursor, an immediately following `UnreadByte` succeeds and restores the
cursor, a subsequent `ReadByte` returns the same byte again, and a second
consecutive `UnreadByte` fails.  (On the `SingleFakeIO`/`men_buffer`
variant the second `UnreadByte` instead succeeds whenever the cursor is
still positive; see the counterexample.) -/
theorem c8_unread_amended (s : FakeIo) (h : s.off < s.len) :
    (s.ReadByte).2.1 = none ∧
    (s.ReadByte).2.2.off = s.off + 1 ∧
    ((s.ReadByte).2.2.UnreadByte).1 = none ∧
    ((s.ReadByte).2.2.UnreadByte).2.off = s.off ∧
    (((s.ReadByte).2.2.UnreadByte).2.ReadByte).1 = (s.ReadByte).1 ∧
    ((((s.ReadByte).2.2.UnreadByte).2).UnreadByte).1 ≠ none := by
  have hne : ¬ (s.len ≤ s.off) := Nat.not_le.mpr h
  simp [FakeIo.ReadByte, FakeIo.UnreadByte, FakeIo.isEmpty, hne]

/-- Concrete instance of the amended C8 theorem on a two-byte buffer. -/
theorem c8_unread_amended_witness :
    ((FakeIo.NewFakeIo [5, 6]).ReadByte).2.1 = none ∧
    ((FakeIo.NewFakeIo [5, 6]).ReadByte).2.2.off = 1 ∧
    (((FakeIo.NewFakeIo [5, 6]).ReadByte).2.2.UnreadByte).1 = none ∧
    (((FakeIo.NewFakeIo [5, 6]).ReadByte).2.2.UnreadByte).2.off = 0 ∧
    ((((FakeIo.NewFakeIo [5, 6]).ReadByte).2.2.UnreadByte).2.ReadByte).1 =
      ((FakeIo.NewFakeIo [5, 6]).ReadByte).1 ∧
    (((((FakeIo.NewFakeIo [5, 6]).ReadByte).2.2.UnreadByte).2).UnreadByte).1 ≠ none :=
  c8_unread_amended (FakeIo.NewFakeIo [5, 6]) (by decide)

/-- Length preservation of an in-bounds byte overwrite. -/
theorem writeBytesAt_length {arr src : List UInt8} {start k : Nat}
    (h1 : start + k ≤ arr.length) (h2 : k ≤ src.length) :
    (writeBytesAt arr start k src).length = arr.length := by
  simp only [writeBytesAt, List.length_append, List.length_take, List.length_drop]
  omega

/-- The first `start + k` bytes after an in-bounds overwrite are the old
prefix followed by the copied bytes. -/
theorem writeBytesAt_take {arr src : List UInt8} {start k : Nat}
    (h1 : start + k ≤ arr.length) (h2 : k ≤ src.length) :
    (writeBytesAt arr start k src).take (start + k) = arr.take start ++ src.take k := by
  rw [writeBytesAt]
  refine List.take_left' ?_
  simp only [List.length_append, List.length_take]
  omega

/-- Unread length of a well-formed buffer state. -/
theorem contents_length {s : FakeIo} (h1 : s.len ≤ s.data.length) :
    s.contents.length = s.len - s.off := by
  simp only [FakeIo.contents, List.length_drop, List.length_take]
  omega

/-- Specification of a successful `tryGrowByReslice`. -/
theorem tryGrowByReslice_spec {s : FakeIo} {n m : Nat} {s1 : FakeIo}
    (hG : Good s) (h : s.tryGrowByReslice n = some (m, s1)) :
    GrewTo s n m s1 := by
  obtain ⟨h1, h2, h3⟩ := hG
  by_cases hc : n ≤ s.cap - s.len
  · rw [FakeIo.tryGrowByReslice, if_pos hc] at h
    injection h with h'
    injection h' with hm hs
    subst hm; subst hs
    unfold FakeIo.cap at hc
    exact ⟨rfl, by show s.len + n ≤ s.data.length; omega, h1, rfl, h3, Or.inl rfl⟩
  · rw [FakeIo.tryGrowByReslice, if_neg hc] at h
    cases h

/-- Specification of a successful `growAfterReset` on a well-formed
state. -/
theorem growAfterReset_spec {t : FakeIo} {n m : Nat} {s2 : FakeIo}
    (hG : Good t) (h : FakeIo.growAfterReset t n = .ok (m, s2)) :
    GrewTo t n m s2 := by
  obtain ⟨h1, h2, h3⟩ := hG
  unfold FakeIo.growAfterReset at h
  cases htry : t.tryGrowByReslice n with
  | some r =>
    obtain ⟨m', s'⟩ := r
    rw [htry] at h
    injection h with h'
    injection h' with hm hs
    subst hm; subst hs
    exact tryGrowByReslice_spec ⟨h1, h2, h3⟩ htry
  | none =>
    rw [htry] at h
    simp only [FakeIo.cap, FakeIo.lenUnread] at h
    split_ifs at h with hnil hslide hoff
    · -- nil buffer, small request: fresh allocation of the minimal capacity
      injection h with h'
      injection h' with hm hs
      subst hm; subst hs
      have hn64 : n ≤ 64 := hnil.2
      have hdata : t.data = [] := h3 hnil.1
      have hlen0 : t.len = 0 := by rw [hdata] at h2; simpa using h2
      have hoff0 : t.off = 0 := by omega
      refine ⟨by simp, ?_, by simp [hoff0], ?_, by simp, ?_⟩
      · show n ≤ (List.replicate smallBufferSize (0 : UInt8)).length
        simpa [smallBufferSize] using hn64
      · show ((List.replicate smallBufferSize (0 : UInt8)).take 0).drop t.off = t.contents
        simp [FakeIo.contents, hdata]
      · right
        show 2 * t.data.length + n ≤ (List.replicate smallBufferSize (0 : UInt8)).length
        simp [hdata, smallBufferSize]
        omega
    · -- slide the unread region to the front of the existing array
      injection h with h'
      injection h' with hm hs
      subst hm; subst hs
      have hsrc : t.contents.length = t.len - t.off := contents_length h2
      have hk : goCopyCount (t.len - 0) t.contents.length = t.len - t.off := by
        simp only [goCopyCount, hsrc, Nat.sub_zero]
        omega
      have hmn : t.len - t.off + n ≤ t.data.length := by omega
      have hdlen : (goCopy t.data t.len 0 t.contents).2.length = t.data.length := by
        simp only [goCopy, hk]
        exact writeBytesAt_length (by omega) (by omega)
      have htk : t.contents.take (t.len - t.off) = t.contents := by
        rw [← hsrc, List.take_length]
      have hcontents :
          ((goCopy t.data t.len 0 t.contents).2.take (t.len - t.off)).drop 0 = t.contents := by
        simp only [goCopy, hk, List.drop_zero]
        have hwt := @writeBytesAt_take t.data t.contents 0 (t.len - t.off) (by omega) (by omega)
        simpa [htk] using hwt
      refine ⟨rfl, ?_, Nat.zero_le _, hcontents, ?_, ?_⟩
      · show t.len - t.off + n ≤ (goCopy t.data t.len 0 t.contents).2.length
        omega
      · intro hN
        have hdata : t.data = [] := h3 hN
        have hlen0 : t.len = 0 := by rw [hdata] at h2; simpa using h2
        show (goCopy t.data t.len 0 t.contents).2 = []
        simp [goCopy, goCopyCount, writeBytesAt, hdata, hlen0]
      · left
        show (goCopy t.data t.len 0 t.contents).2.length = t.data.length
        exact hdlen
    · -- fresh allocation of size twice the capacity plus the request
      injection h with h'
      injection h' with hm hs
      subst hm; subst hs
      have hsrc : t.contents.length = t.len - t.off := contents_length h2
      have hk : goCopyCount (2 * t.data.length + n - 0) t.contents.length = t.len - t.off := by
        simp only [goCopyCount, hsrc, Nat.sub_zero]
        omega
      have hdlen : (goCopy (List.replicate (2 * t.data.length + n) (0 : UInt8))
          (2 * t.data.length + n) 0 t.contents).2.length = 2 * t.data.length + n := by
        simp only [goCopy, hk]
        rw [writeBytesAt_length (by simp; omega) (by omega)]
        simp
      have htk : t.contents.take (t.len - t.off) = t.contents := by
        rw [← hsrc, List.take_length]
      have hcontents :
          ((goCopy (List.replicate (2 * t.data.length + n) (0 : UInt8))
            (2 * t.data.length + n) 0 t.contents).2.take (t.len - t.off)).drop 0 = t.contents := by
        simp only [goCopy, hk, List.drop_zero]
        have hwt := @writeBytesAt_take (List.replicate (2 * t.data.length + n) (0 : UInt8))
          t.contents 0 (t.len - t.off) (by simp; omega) (by omega)
        simpa [htk] using hwt
      refine ⟨rfl, ?_, Nat.zero_le _, hcontents, by simp, ?_⟩
      · show t.len - t.off + n ≤ (goCopy (List.replicate (2 * t.data.length + n) (0 : UInt8))
          (2 * t.data.length + n) 0 t.contents).2.length
        omega
      · right
        show 2 * t.data.length + n ≤ (goCopy (List.replicate (2 * t.data.length + n) (0 : UInt8))
          (2 * t.data.length + n) 0 t.contents).2.length
        omega

/-- Specification of a successful `grow` on a well-formed state. -/
theorem grow_spec {s : FakeIo} {n m : Nat} {s1 : FakeIo}
    (hG : Good s) (h : s.grow n = .ok (m, s1)) :
    GrewTo s n m s1 := by
  obtain ⟨h1, h2, h3⟩ := hG
  unfold FakeIo.grow at h
  by_cases hr : s.lenUnread = 0 ∧ s.off ≠ 0
  · rw [if_pos hr] at h
    have hofflen : s.off = s.len := by
      have h0 := hr.1
      unfold FakeIo.lenUnread at h0
      omega
    have hGr : Good s.Reset := ⟨Nat.le_refl 0, Nat.zero_le _, h3⟩
    obtain ⟨g1, g2, g3, g4, g5, g6⟩ := growAfterReset_spec hGr h
    refine ⟨g1, g2, g3, ?_, g5, g6⟩
    rw [g4]
    have hc1 : FakeIo.contents s.Reset = [] := by
      simp [FakeIo.contents, FakeIo.Reset]
    have hc2 : FakeIo.contents s = [] := by
      refine List.drop_of_length_le ?_
      simp only [List.length_take]
      omega
    rw [hc1, hc2]
  · rw [if_neg hr] at h
    exact growAfterReset_spec ⟨h1, h2, h3⟩ h

/-- Specification of a successful `Write` on a well-formed state: the
count equals the input length, well-formedness is preserved, the unread
contents gain exactly the written bytes, and the capacity either is
unchanged or at least doubled plus the input length. -/
theorem write_spec {s : FakeIo} {p : List UInt8} {k : Nat} {s2 : FakeIo}
    (hG : Good s) (h : s.Write p = .ok (k, s2)) :
    k = p.length ∧ Good s2 ∧ s2.contents = s.contents ++ p ∧
    (s2.data.length = s.data.length ∨ 2 * s.data.length + p.length ≤ s2.data.length) := by
  have hG0 : Good ({ s with lastRead := 0 } : FakeIo) := hG
  have hgrew : ∃ m s1, (match FakeIo.tryGrowByReslice { s with lastRead := 0 } p.length with
      | some r => GoResult.ok r
      | none => FakeIo.grow { s with lastRead := 0 } p.length) = .ok (m, s1) ∧
      GrewTo { s with lastRead := 0 } p.length m s1 := by
    cases htry : FakeIo.tryGrowByReslice { s with lastRead := 0 } p.length with
    | some r =>
      obtain ⟨m', s'⟩ := r
      exact ⟨m', s', rfl, tryGrowByReslice_spec hG0 htry⟩
    | none =>
      cases hgr : FakeIo.grow { s with lastRead := 0 } p.length with
      | ok r =>
        obtain ⟨m', s'⟩ := r
        exact ⟨m', s', rfl, grow_spec hG0 hgr⟩
      | panicked e =>
        exfalso
        rw [FakeIo.Write, htry, hgr] at h
        simp only at h
        exact GoResult.noConfusion h
  obtain ⟨m, s1, hr, g1, g2, g3, g4, g5, g6⟩ := hgrew
  rw [FakeIo.Write, hr] at h
  simp only at h
  injection h with h'
  injection h' with hk hs
  subst hk; subst hs
  have hkval : goCopyCount (s1.len - m) p.length = p.length := by
    simp only [goCopyCount, g1]
    omega
  have hmlen : m + p.length ≤ s1.data.length := by rw [← g1]; exact g2
  obtain ⟨D, hD⟩ : ∃ D, (goCopy s1.data s1.len m p).2 = D := ⟨_, rfl⟩
  have hdlen : D.length = s1.data.length := by
    rw [← hD]
    simp only [goCopy, hkval]
    exact writeBytesAt_length (by omega) (by omega)
  have htake : D.take (m + p.length) = s1.data.take m ++ p := by
    rw [← hD]
    simp only [goCopy, hkval]
    rw [writeBytesAt_take (by omega) (by omega)]
    rw [List.take_of_length_le (Nat.le_refl _)]
  have hofftakem : s1.off ≤ (s1.data.take m).length := by
    simp only [List.length_take]
    omega
  refine ⟨hkval, ⟨?_, ?_, ?_⟩, ?_, ?_⟩
  · show s1.off ≤ s1.len
    omega
  · show s1.len ≤ (goCopy s1.data s1.len m p).2.length
    rw [hD]
    omega
  · intro hN
    have hdata : s1.data = [] := g5 hN
    have hlen0 : s1.len = 0 := by
      have hh := g2; rw [hdata] at hh; simpa using hh
    show (goCopy s1.data s1.len m p).2 = []
    have hp0 : p.length = 0 := by omega
    have hm0 : m = 0 := by omega
    rw [List.length_eq_zero] at hp0
    simp [goCopy, goCopyCount, writeBytesAt, hdata, hlen0, hp0, hm0]
  · show ((goCopy s1.data s1.len m p).2.take s1.len).drop s1.off =
      FakeIo.contents s ++ p
    rw [hD, g1, htake, List.drop_append_of_le_length hofftakem]
    have hmid : (s1.data.take m).drop s1.off = FakeIo.contents s := g4
    rw [hmid]
  · show (goCopy s1.data s1.len m p).2.length = s.data.length ∨
      2 * s.data.length + p.length ≤ (goCopy s1.data s1.len m p).2.length
    rw [hD, hdlen]
    exact g6

/-- Specification of `Read` on a well-formed state: it returns the first
`n` unread bytes, drops them from the unread contents, and preserves
well-formedness. -/
theorem read_spec {s : FakeIo} (hG : Good s) (n : Nat) :
    (s.Read n).1 = s.contents.take n ∧
    Good (s.Read n).2.2 ∧
    (s.Read n).2.2.contents = s.contents.drop n := by
  obtain ⟨h1, h2, h3⟩ := hG
  have hcl : s.contents.length = s.len - s.off := contents_length h2
  by_cases hempty : s.len ≤ s.off
  · have hc : s.contents = [] := by
      rw [← List.length_eq_zero]
      omega
    rw [FakeIo.Read, if_pos hempty]
    exact ⟨by simp [hc], ⟨h1, h2, h3⟩, by simp [hc]⟩
  · have hie : FakeIo.isEmpty { s with lastRead := 0 } = false := by
      simp only [FakeIo.isEmpty, decide_eq_false_iff_not]
      omega
    have hk : s.Read n =
        (s.contents.take (min n (s.len - s.off)), none,
          { s with off := s.off + min n (s.len - s.off),
                   lastRead := if 0 < min n (s.len - s.off) then -1 else 0 }) := by
      rw [FakeIo.Read, if_neg hempty]
      simp only [hie, Bool.false_eq_true, if_false]
      rfl
    rw [hk]
    refine ⟨?_, ⟨?_, h2, h3⟩, ?_⟩
    · show s.contents.take (min n (s.len - s.off)) = s.contents.take n
      rcases Nat.le_total n (s.len - s.off) with hle | hge
      · rw [Nat.min_eq_left hle]
      · rw [Nat.min_eq_right hge, List.take_of_length_le (by omega),
          List.take_of_length_le (by omega)]
    · show s.off + min n (s.len - s.off) ≤ s.len
      omega
    · show (s.data.take s.len).drop (s.off + min n (s.len - s.off)) = s.contents.drop n
      rw [← List.drop_drop]
      show s.contents.drop (min n (s.len - s.off)) = s.contents.drop n
      rcases Nat.le_total n (s.len - s.off) with hle | hge
      · rw [Nat.min_eq_left hle]
      · rw [Nat.min_eq_right hge, List.drop_of_length_le (by omega),
          List.drop_of_length_le (by omega)]

/-- A loop of reads returns the unread contents truncated at the total of
the slice sizes. -/
theorem readLoop_spec {s : FakeIo} (hG : Good s) (sizes : List Nat) :
    (readLoop sizes s).1 = s.contents.take sizes.sum ∧ Good (readLoop sizes s).2 := by
  induction sizes generalizing s with
  | nil => exact ⟨by simp [readLoop], hG⟩
  | cons n rest ih =>
    obtain ⟨r1, r2, r3⟩ := read_spec hG n
    obtain ⟨i1, i2⟩ := ih r2
    constructor
    · show (s.Read n).1 ++ (readLoop rest (s.Read n).2.2).1 = s.contents.take (n :: rest).sum
      rw [r1, i1, r3, List.sum_cons, List.take_add]
    · show Good (readLoop rest (s.Read n).2.2).2
      exact i2

/-- A successful sequence of writes from a well-formed state appends the
concatenation of the chunks to the unread contents. -/
theorem writeAll_spec {chunks : List (List UInt8)} {s s2 : FakeIo}
    (hG : Good s) (h : writeAll chunks s = .ok s2) :
    Good s2 ∧ s2.contents = s.contents ++ chunks.flatten := by
  induction chunks generalizing s with
  | nil =>
    simp only [writeAll] at h
    injection h with h'
    subst h'
    exact ⟨hG, by simp⟩
  | cons c rest ih =>
    simp only [writeAll] at h
    cases hw : s.Write c with
    | panicked e =>
      rw [hw] at h
      simp only at h
      exact GoResult.noConfusion h
    | ok r =>
      obtain ⟨k1, s1⟩ := r
      rw [hw] at h
      simp only at h
      obtain ⟨w1, w2, w3, w4⟩ := write_spec hG hw
      obtain ⟨i1, i2⟩ := ih w2 h
      refine ⟨i1, ?_⟩
      rw [i2, w3, List.flatten_cons, List.append_assoc]

/-- Claim C1: for every sequence of byte chunks written in order via
`Write` into a fresh buffer (allocation succeeding), reading back via
`Read` in a loop with any slice sizes totalling at least the written
length yields exactly the concatenation of the chunks, byte for byte —
no bytes lost, reordered, or corrupted. -/
theorem c1_write_read_roundtrip (chunks : List (List UInt8)) (sizes : List Nat) (s : FakeIo)
    (h : writeAll chunks FakeIo.zeroValue = .ok s)
    (hs : chunks.flatten.length ≤ sizes.sum) :
    (readLoop sizes s).1 = chunks.flatten := by
  have hG : Good FakeIo.zeroValue := by decide
  obtain ⟨hG1, hc⟩ := writeAll_spec hG h
  rw [show FakeIo.contents FakeIo.zeroValue = [] from rfl, List.nil_append] at hc
  obtain ⟨r1, _⟩ := readLoop_spec hG1 sizes
  rw [r1, hc]
  exact List.take_of_length_le hs

/-- Concrete instance of the C1 round-trip: chunks `[1]` and `[2, 3]`
written into a fresh buffer, read back with two slices of size 2. -/
theorem c1_write_read_roundtrip_witness :
    (readLoop [2, 2] ⟨[1, 2, 3] ++ List.replicate 61 0, 3, false, 0, 0⟩).1 =
      [[1], [2, 3]].flatten :=
  c1_write_read_roundtrip [[1], [2, 3]] [2, 2]
    ⟨[1, 2, 3] ++ List.replicate 61 0, 3, false, 0, 0⟩ (by decide) (by decide)

/-- Claim C9 (amended, holds for the `mem.FakeIO` variant): a `Write` on
a well-formed state either keeps the backing capacity unchanged (reslice
or in-place slide) or reallocates to at least twice the prior capacity
plus the requested byte count; the `SingleFakeIO`/`men_buffer` variant
does not obey this bound (see the counterexample). -/
theorem c9_growth_amended (s : FakeIo) (p : List UInt8) (k : Nat) (s2 : FakeIo)
    (hG : Good s) (h : s.Write p = .ok (k, s2)) :
    s2.data.length = s.data.length ∨ 2 * s.data.length + p.length ≤ s2.data.length :=
  (write_spec hG h).2.2.2

/-- Concrete instance of the amended C9 theorem: the first one-byte write
into the zero-value buffer allocates the 64-byte minimal capacity, at
least twice the zero prior capacity plus one. -/
theorem c9_growth_amended_witness :
    (⟨97 :: List.replicate 63 0, 1, false, 0, 0⟩ : FakeIo).data.length =
      FakeIo.zeroValue.data.length ∨
    2 * FakeIo.zeroValue.data.length + 1 ≤
      (⟨97 :: List.replicate 63 0, 1, false, 0, 0⟩ : FakeIo).data.length :=
  c9_growth_amended FakeIo.zeroValue [97] 1 ⟨97 :: List.replicate 63 0, 1, false, 0, 0⟩
    (by decide) (by decide)

/-- Last element of a prefix of length `i + 1`. -/
theorem getLast?_take_succ {l : List UInt8} {i : Nat} (h : i < l.length) :
    (l.take (i + 1)).getLast? = l[i]? := by
  rw [List.getLast?_eq_getElem?, List.length_take]
  have hmin : min (i + 1) l.length = i + 1 := by omega
  rw [hmin, Nat.add_sub_cancel, List.getElem?_take_of_lt (Nat.lt_succ_self i)]

/-- Claim C4 (amended, holds for the `mem.FakeIO` variant): `readSlice`
(underlying `ReadBytes` and `ReadString`) returns the bytes from the read
cursor up to and including the first occurrence of the delimiter (or up
to the end of the buffer when absent), advances the cursor by the length
of the returned span, and returns a non-nil error exactly when the span
does not end with the delimiter.  (The `SingleFakeIO`/`men_buffer`
variant violates the error condition; see the counterexample.) -/
theorem c4_readslice_amended (s : FakeIo) (delim : UInt8) (hG : Good s) :
    ∃ line err s1, s.readSlice delim = .ok (line, err, s1) ∧
      line = (match s.contents.findIdx? (· == delim) with
              | some i => s.contents.take (i + 1)
              | none => s.contents) ∧
      s1.off = s.off + line.length ∧
      (err ≠ none ↔ line.getLast? ≠ some delim) := by
  obtain ⟨h1, h2, h3⟩ := hG
  have hcl : s.contents.length = s.len - s.off := contents_length h2
  cases hf : s.contents.findIdx? (· == delim) with
  | some i =>
    obtain ⟨hilt, hpi, -⟩ := List.findIdx?_eq_some_iff_getElem.mp hf
    have hk : s.readSlice delim =
        .ok (s.contents.take (i + 1), none, { s with off := s.off + i + 1, lastRead := -1 }) := by
      rw [FakeIo.readSlice, if_pos h1]
      simp only [hf]
    refine ⟨s.contents.take (i + 1), none, _, hk, rfl, ?_, ?_⟩
    · show s.off + i + 1 = s.off + (s.contents.take (i + 1)).length
      simp only [List.length_take]
      omega
    · have hlast : (s.contents.take (i + 1)).getLast? = some delim := by
        rw [getLast?_take_succ hilt, List.getElem?_eq_getElem hilt]
        simpa using hpi
      simp [hlast]
  | none =>
    have hnone := List.findIdx?_eq_none_iff.mp hf
    have hk : s.readSlice delim =
        .ok (s.contents, some .eof, { s with off := s.len, lastRead := -1 }) := by
      rw [FakeIo.readSlice, if_pos h1]
      simp only [hf]
    refine ⟨s.contents, some .eof, _, hk, rfl, ?_, ?_⟩
    · show s.len = s.off + s.contents.length
      omega
    · have hlast : s.contents.getLast? ≠ some delim := by
        intro habs
        obtain ⟨ys, hys⟩ := List.getLast?_eq_some_iff.mp habs
        have hmem : delim ∈ s.contents := by rw [hys]; simp
        have := hnone delim hmem
        simp at this
      simp [hlast]

/-- Concrete instance of the amended C4 theorem on a buffer holding
bytes `[97, 10, 98]` with delimiter 10. -/
theorem c4_readslice_amended_witness :
    ∃ line err s1, (FakeIo.NewFakeIo [97, 10, 98]).readSlice 10 = .ok (line, err, s1) ∧
      line = (match (FakeIo.NewFakeIo [97, 10, 98]).contents.findIdx? (· == 10) with
              | some i => (FakeIo.NewFakeIo [97, 10, 98]).contents.take (i + 1)
              | none => (FakeIo.NewFakeIo [97, 10, 98]).contents) ∧
      s1.off = (FakeIo.NewFakeIo [97, 10, 98]).off + line.length ∧
      (err ≠ none ↔ line.getLast? ≠ some 10) :=
  c4_readslice_amended (FakeIo.NewFakeIo [97, 10, 98]) 10 (by decide)

/-- Claim C5 (amended): when `WriteAt(p, pos)` must allocate a fresh
backing array (the required end exceeds the current capacity) and `pos`
is at or beyond the old length, the gap between the old length and `pos`
is zero-filled (a sparse extend) and `p` lands at `pos`; and overlapping
writes overwrite byte for byte, as in the `"abcdef"` to `"aXYZef"`
example.  (When the extension fits the existing capacity the gap instead
re-exposes stale backing bytes; see the counterexample.) -/
theorem c5_writeat_amended (s : FakeIo) (p : List UInt8) (pos : Nat)
    (hG : Good s) (hpos : s.len ≤ pos) (hcap : s.data.length < pos + p.length) :
    (∃ s1, s.WriteAt p (pos : Int) = .ok (p.length, s1) ∧
       s1.full = s.full ++ List.replicate (pos - s.len) 0 ++ p) ∧
    (FakeIo.NewFakeIo [97, 98, 99, 100, 101, 102]).WriteAt [88, 89, 90] 1 =
      .ok (3, ⟨[97, 88, 89, 90, 101, 102], 6, false, 0, 0⟩) := by
  obtain ⟨h1, h2, h3⟩ := hG
  refine ⟨?_, by decide⟩
  have hfl : s.full.length = s.len := by
    simp only [FakeIo.full, List.length_take]
    omega
  have e1 : ((pos : Int) + ((p.length : Nat) : Int)).toNat = pos + p.length := by omega
  have hcond1 : (s.len : Int) < (pos : Int) + (p.length : Int) := by omega
  have hcond2 : (s.data.length : Int) < (pos : Int) + (p.length : Int) := by omega
  have hk1 : goCopyCount (pos + p.length - 0) s.full.length = s.len := by
    simp only [goCopyCount, hfl, Nat.sub_zero]
    omega
  have hD1 : (goCopy (List.replicate (pos + p.length) 0) (pos + p.length) 0 s.full).2 =
      s.full ++ List.replicate (pos + p.length - s.len) 0 := by
    simp only [goCopy, hk1, writeBytesAt, List.take_zero, List.nil_append, Nat.zero_add]
    rw [List.take_of_length_le (by omega), List.drop_replicate]
  have hD1len : (s.full ++ List.replicate (pos + p.length - s.len) 0).length =
      pos + p.length := by
    simp only [List.length_append, List.length_replicate, hfl]
    omega
  have hk2 : goCopyCount (pos + p.length - pos) p.length = p.length := by
    simp only [goCopyCount]
    omega
  have hD2 : (goCopy (s.full ++ List.replicate (pos + p.length - s.len) 0)
      (pos + p.length) pos p).2 = s.full ++ List.replicate (pos - s.len) 0 ++ p := by
    simp only [goCopy, hk2, writeBytesAt]
    rw [List.take_of_length_le (Nat.le_refl p.length),
      List.drop_of_length_le (by rw [hD1len]), List.append_nil,
      List.take_append_eq_append_take,
      List.take_of_length_le (by omega), List.take_replicate, hfl]
    congr 3
    omega
  have hk : s.WriteAt p (pos : Int) =
      .ok (p.length,
        { s with
            data := (goCopy ((goCopy (List.replicate (pos + p.length) 0)
              (pos + p.length) 0 s.full).2) (pos + p.length) pos p).2,
            len := pos + p.length, isNil := false }) := by
    simp only [FakeIo.WriteAt, FakeIo.cap, e1]
    rw [if_pos hcond1, if_pos hcond2]
    rw [if_pos ?hcnd]
    case hcnd =>
      refine ⟨by omega, ?_⟩
      show (pos : Int) ≤ ((pos + p.length : Nat) : Int)
      omega
    rfl
  refine ⟨_, hk, ?_⟩
  show ((goCopy ((goCopy (List.replicate (pos + p.length) 0)
      (pos + p.length) 0 s.full).2) (pos + p.length) pos p).2).take (pos + p.length) =
    s.full ++ List.replicate (pos - s.len) 0 ++ p
  rw [hD1, hD2]
  refine List.take_of_length_le ?_
  simp only [List.length_append, List.length_replicate, hfl]
  omega

/-- Concrete instance of the amended C5 theorem: a sparse `WriteAt` of
one byte at position 3 into a one-byte buffer zero-fills the two-byte
gap, and the `"abcdef"` overwrite example holds. -/
theorem c5_writeat_amended_witness :
    (∃ s1, (FakeIo.NewFakeIo [97]).WriteAt [88] ((3 : Nat) : Int) = .ok (1, s1) ∧
       s1.full = (FakeIo.NewFakeIo [97]).full ++
         List.replicate (3 - (FakeIo.NewFakeIo [97]).len) 0 ++ [88]) ∧
    (FakeIo.NewFakeIo [97, 98, 99, 100, 101, 102]).WriteAt [88, 89, 90] 1 =
      .ok (3, ⟨[97, 88, 89, 90, 101, 102], 6, false, 0, 0⟩) :=
  c5_writeat_amended (FakeIo.NewFakeIo [97]) [88] 3 (by decide) (by decide) (by decide)
